import Mathlib

set_option maxRecDepth 8000

/-! # Formal model of the Wealthometer web server (src/main.cpp)

C++ byte strings (`std::string`, `char` buffers) are modelled as `List Char`,
one `Char` per byte, so `length`, positional `substr`/`find` and byte counts
coincide with the C++ operations.  `std::istringstream` driven by
`std::getline` is modelled by pre-splitting the stream contents into the
successive getline results (`linesOf`), each line paired with the eofbit the
stream has after extracting it.  A C++ exception escaping a function is
modelled by `Except.error ()`.  -/

abbrev Str := List Char

/-- One `std::getline(stream, line)` step on the remaining stream contents:
the extracted line (up to, and not including, a `'\n'` delimiter), the rest
of the stream, and whether eof was hit instead of a delimiter (the eofbit). -/
def getlineAux : Str → Str × Str × Bool
  | [] => ([], [], true)
  | c :: cs =>
    if c = '\n' then ([], cs, false)
    else
      let r := getlineAux cs
      (c :: r.1, r.2.1, r.2.2)

/-- All successive `std::getline` results of a stream, with their eofbit
flags.  `linesOf` is the transitive closure of `getlineAux`
(see `linesOf_eq_getlineAux`). -/
def linesOf : Str → List (Str × Bool)
  | [] => []
  | c :: cs =>
    if c = '\n' then ([], false) :: linesOf cs
    else
      match linesOf cs with
      | [] => [([c], true)]
      | (l, e) :: rest => (c :: l, e) :: rest

/-- `std::isspace` for the default locale, used by `operator>>`. -/
def isWS (c : Char) : Bool :=
  c = ' ' || c = '\t' || c = '\n' || c = Char.ofNat 11 || c = Char.ofNat 12 || c = '\r'

/-- One `stream >> str` extraction on a string stream: skip whitespace, then
take the maximal whitespace-free token.  When nothing is left the extracted
string is empty, matching the erased-on-failure semantics of `operator>>` on
`std::string`. -/
def nextToken (s : Str) : Str × Str :=
  let s1 := s.dropWhile isWS
  (s1.takeWhile (fun c => !isWS c), s1.dropWhile (fun c => !isWS c))

/-- `lineStream >> req.method >> req.path >> req.version`
(src/main.cpp lines 72-73). -/
def parseRequestLine (line : Str) : Str × Str × Str :=
  let t1 := nextToken line
  let t2 := nextToken t1.2
  let t3 := nextToken t2.2
  (t1.1, t2.1, t3.1)

/-- Association list with insert-or-assign, modelling `std::map`'s
`m[k] = v` (src/main.cpp lines 86 and 170).  The claims depend only on
lookup, size and the inserted bindings, which are independent of the
(ordered-tree vs list) representation. -/
def insertA {β : Type} : List (Str × β) → Str → β → List (Str × β)
  | [], k, v => [(k, v)]
  | (k', v') :: rest, k, v =>
    if k' = k then (k, v) :: rest else (k', v') :: insertA rest k v

/-- `std::map::find` (presence and value). -/
def lookupA {β : Type} : List (Str × β) → Str → Option β
  | [], _ => none
  | (k', v) :: rest, k => if k' = k then some v else lookupA rest k

abbrev Headers := List (Str × Str)

/-- First index of a character in a byte string, `std::string::find`
(src/main.cpp line 78; `none` is `npos`). -/
def findChar (c : Char) : Str → Option Nat
  | [] => none
  | x :: xs => if x = c then some 0 else (findChar c xs).map (· + 1)

/-- `std::string::substr(pos)`: the suffix from `pos`, throwing
`std::out_of_range` when `pos > size()` (modelled as `Except.error ()`). -/
def substrFrom (s : Str) (pos : Nat) : Except Unit Str :=
  if pos ≤ s.length then Except.ok (s.drop pos) else Except.error ()

/-- `if (!value.empty() && value.back() == '\r') value.pop_back();`
(src/main.cpp lines 83-85). -/
def stripCR (v : Str) : Str :=
  if v.getLast? = some '\r' then v.dropLast else v

/-- The body of the header loop for one line (src/main.cpp lines 78-87):
split at the first colon (lines without a colon are skipped), take
`substr(colon + 2)` as the raw value — the only place the parser can throw —
strip one trailing CR, and insert into the headers map. -/
def parseHeaderLine (m : Headers) (line : Str) : Except Unit Headers :=
  match findChar ':' line with
  | none => Except.ok m
  | some colon =>
    (substrFrom line (colon + 2)).map fun raw =>
      insertA m (line.take colon) (stripCR raw)

/-- The header loop (src/main.cpp lines 77-88): consume lines until the
bare-CR separator line, or until the stream is exhausted; returns the headers
and the lines remaining for the body loop. -/
def headerLoop : Headers → List (Str × Bool) → Except Unit (Headers × List (Str × Bool))
  | m, [] => Except.ok (m, [])
  | m, (line, _) :: rest =>
    if line = ['\r'] then Except.ok (m, rest)
    else (parseHeaderLine m line).bind fun m' => headerLoop m' rest

/-- The body loop (src/main.cpp lines 91-97): re-join the remaining lines,
appending `'\n'` after a line exactly when that getline did not set eofbit. -/
def bodyJoin : List (Str × Bool) → Str
  | [] => []
  | (line, e) :: rest => line ++ (if e then [] else ['\n']) ++ bodyJoin rest

/-- `HTTPServer::HTTPRequest` (src/main.cpp lines 57-63). -/
structure HTTPRequest where
  method : Str
  path : Str
  version : Str
  headers : Headers
  body : Str
deriving DecidableEq

/-- `HTTPServer::parseRequest` (src/main.cpp lines 65-101).  When the stream
is empty the first getline fails and every later getline fails too, leaving
all fields empty.  `Except.error ()` models the `std::out_of_range` thrown by
`substr` on line 81 escaping the function. -/
def parseRequest (s : Str) : Except Unit HTTPRequest :=
  match linesOf s with
  | [] => Except.ok { method := [], path := [], version := [], headers := [], body := [] }
  | (rl, _) :: rest =>
    (headerLoop [] rest).map fun hr =>
      { method := (parseRequestLine rl).1
        path := (parseRequestLine rl).2.1
        version := (parseRequestLine rl).2.2
        headers := hr.1
        body := bodyJoin hr.2 }

/-- `HTTPServer::createResponse` (src/main.cpp lines 104-115): the exact byte
sequence accumulated by the `ostringstream`.  `content.length` is the byte
length of the body under the byte-per-`Char` convention. -/
def createResponse (status_code : Int) (status_msg : Str) (content : Str)
    (content_type : Str) : Str :=
  "HTTP/1.1 ".toList ++ (toString status_code).toList ++ " ".toList ++ status_msg
    ++ "\r\n".toList
    ++ "Content-Type: ".toList ++ content_type ++ "\r\n".toList
    ++ "Content-Length: ".toList ++ (toString content.length).toList ++ "\r\n".toList
    ++ "Connection: close\r\n".toList
    ++ "\r\n".toList
    ++ content

abbrev Handler := Headers → Str

abbrev Routes := List (Str × Handler)

/-- `HTTPServer::addRoute` (src/main.cpp lines 168-171):
`routes[path] = handler`, i.e. insert-or-overwrite at the exact path. -/
def addRoute (routes : Routes) (path : Str) (handler : Handler) : Routes :=
  insertA routes path handler

/-- The default 404 body (src/main.cpp lines 144-146); the requested path is
embedded verbatim between two fixed HTML fragments. -/
def notFoundBody (path : Str) : Str :=
  "<!DOCTYPE html><html><head><title>404 Not Found</title></head><body><h1>404 Not Found</h1><p>The requested URL ".toList
    ++ path ++ " was not found on this server.</p></body></html>".toList

/-- The observable socket operations `handleClient` performs on the client
socket, in order. -/
inductive SockAction where
  | send (data : Str)
  | close
deriving DecidableEq

/-- `HTTPServer::handleClient` (src/main.cpp lines 118-155).  `raw` is the
`bytesReceived`-byte content `recv` wrote into the buffer; line 125
NUL-terminates the buffer and line 126 builds a `std::string` from it as a C
string, so parsing sees only the bytes strictly before the first NUL byte.
An `Except.error` result models the `std::out_of_range` thrown inside
`parseRequest` escaping `handleClient`: in that case `closeSocket` on line
154 is never reached (the exception unwinds out of the detached thread). -/
def handleClient (routes : Routes) (bytesReceived : Int) (raw : Str) :
    Except Unit (List SockAction) :=
  if 0 < bytesReceived then
    (parseRequest (raw.takeWhile fun c => c != Char.ofNat 0)).map fun request =>
      match lookupA routes request.path with
      | some handler =>
        [SockAction.send (createResponse 200 "OK".toList (handler request.headers)
          "text/html".toList), SockAction.close]
      | none =>
        [SockAction.send (createResponse 404 "Not Found".toList
          (notFoundBody request.path) "text/html".toList), SockAction.close]
  else
    Except.ok [SockAction.close]

/-! ## Spec-side definitions used to state the claims -/

/-- Spec-side rendering of the response contract: status line, the three
headers each CRLF-terminated, a blank CRLF, then the body with no trailing
terminator. -/
def specResponse (status_code : Int) (status_msg : Str) (content : Str)
    (content_type : Str) : Str :=
  let crlf : Str := "\r\n".toList
  let statusLine := "HTTP/1.1 ".toList ++ (toString status_code).toList
    ++ " ".toList ++ status_msg
  let headerLines : List Str :=
    ["Content-Type: ".toList ++ content_type,
     "Content-Length: ".toList ++ (toString content.length).toList,
     "Connection: close".toList]
  statusLine ++ crlf ++ (headerLines.map (· ++ crlf)).flatten ++ crlf ++ content

/-- Demo handlers used as concrete witnesses. -/
def rootHandler : Handler := fun _ => "hello".toList

def demoHandlerA : Handler := fun _ => "A".toList

def demoHandlerB : Handler := fun _ => "B".toList

/-- One wire header line `Key: Value` followed by CRLF (spec-side notion of
a well-formed header line, used to state C5). -/
def mkHeaderLine (kv : Str × Str) : Str :=
  kv.1 ++ ':' :: ' ' :: (kv.2 ++ ['\r', '\n'])

/-- A full wire request with CRLF line endings: request line, header lines,
blank separator line, body. -/
def mkRequest (rl : Str) (kvs : List (Str × Str)) (body : Str) : Str :=
  rl ++ '\r' :: '\n' :: ((kvs.map mkHeaderLine).flatten ++ '\r' :: '\n' :: body)

/-- Well-formedness of a `Key: Value` pair: no colon inside the key and no
line-control characters in either part. -/
def wfKV (kv : Str × Str) : Prop :=
  ':' ∉ kv.1 ∧ '\n' ∉ kv.1 ∧ '\r' ∉ kv.1 ∧ '\n' ∉ kv.2 ∧ '\r' ∉ kv.2

instance wfKV_decidable (kv : Str × Str) : Decidable (wfKV kv) := by
  unfold wfKV
  infer_instance

/-- The value carried by the last header line bearing the given key
(spec-side notion for C5's last-one-wins). -/
def lastValue (kvs : List (Str × Str)) (key : Str) : Option Str :=
  kvs.foldl (fun acc kv => if kv.1 = key then some kv.2 else acc) none

/-- Inserting a list of bindings in order into a headers map. -/
def foldIns (m : Headers) (kvs : List (Str × Str)) : Headers :=
  kvs.foldl (fun acc kv => insertA acc kv.1 kv.2) m

/-- Concrete header lines for the C5 witness, with a duplicated `Host` key. -/
def demoKVs : List (Str × Str) :=
  [("Host".toList, "a".toList), ("Accept".toList, "b".toList), ("Host".toList, "c".toList)]

/-- The lines the header loop actually processes: everything after the
request line and before the first bare-CR line. -/
def headerRegion (s : Str) : List Str :=
  (((linesOf s).drop 1).map Prod.fst).takeWhile (fun l => l != ['\r'])

/-! ## Supporting lemmas -/

theorem linesOf_eq_getlineAux (s : Str) (h : s ≠ []) :
    linesOf s = ((getlineAux s).1, (getlineAux s).2.2) :: linesOf (getlineAux s).2.1 := by
  induction s with
  | nil => exact absurd rfl h
  | cons c cs ih =>
    by_cases hc : c = '\n'
    · subst hc; simp [linesOf, getlineAux]
    · by_cases hcs : cs = []
      · subst hcs; simp [linesOf, getlineAux, hc]
      · simp only [linesOf, getlineAux, if_neg hc]
        rw [ih hcs]

theorem takeWhile_append_nul (pre post : Str) (h : Char.ofNat 0 ∉ pre) :
    (pre ++ Char.ofNat 0 :: post).takeWhile (fun c => c != Char.ofNat 0) = pre := by
  induction pre with
  | nil => simp [List.takeWhile_cons]
  | cons c cs ih =>
    have hc : c ≠ Char.ofNat 0 := fun hh => h (hh ▸ List.mem_cons_self c cs)
    have hcs : Char.ofNat 0 ∉ cs := fun hh => h (List.mem_cons_of_mem c hh)
    simp [List.takeWhile_cons, hc, ih hcs]

theorem takeWhile_no_nul (pre : Str) (h : Char.ofNat 0 ∉ pre) :
    pre.takeWhile (fun c => c != Char.ofNat 0) = pre := by
  induction pre with
  | nil => rfl
  | cons c cs ih =>
    have hc : c ≠ Char.ofNat 0 := fun hh => h (hh ▸ List.mem_cons_self c cs)
    have hcs : Char.ofNat 0 ∉ cs := fun hh => h (List.mem_cons_of_mem c hh)
    simp [List.takeWhile_cons, hc, ih hcs]

theorem lookupA_insertA_self {β : Type} (m : List (Str × β)) (k : Str) (v : β) :
    lookupA (insertA m k v) k = some v := by
  induction m with
  | nil => simp [insertA, lookupA]
  | cons kv rest ih =>
    obtain ⟨k', v'⟩ := kv
    by_cases h : k' = k
    · simp [insertA, lookupA, h]
    · simp [insertA, lookupA, h, ih]

theorem lookupA_insertA_ne {β : Type} (m : List (Str × β)) (k q : Str) (v : β)
    (h : q ≠ k) : lookupA (insertA m k v) q = lookupA m q := by
  have h' : k ≠ q := Ne.symm h
  induction m with
  | nil => simp [insertA, lookupA, h']
  | cons kv rest ih =>
    obtain ⟨k', v'⟩ := kv
    by_cases hk : k' = k
    · subst hk
      simp [insertA, lookupA, h']
    · simp [insertA, lookupA, hk, ih]

theorem insertA_insertA_same {β : Type} (m : List (Str × β)) (p : Str) (h₁ h₂ : β) :
    insertA (insertA m p h₁) p h₂ = insertA m p h₂ := by
  induction m with
  | nil => simp [insertA]
  | cons kv rest ih =>
    obtain ⟨k', v'⟩ := kv
    by_cases h : k' = p
    · simp [insertA, h]
    · simp [insertA, h, ih]

/-! ## Claim theorems -/

/-- C1: for every path registered with handler `H`, handling a connection
whose request parses to that path yields status 200 "OK", content type
`text/html`, and a body equal to `H` applied to the parsed headers. -/
theorem handleClient_registered_route (routes : Routes) (n : Int) (raw : Str)
    (req : HTTPRequest) (H : Handler) (hn : 0 < n)
    (hparse : parseRequest (raw.takeWhile fun c => c != Char.ofNat 0) = Except.ok req)
    (hroute : lookupA routes req.path = some H) :
    handleClient routes n raw =
      Except.ok [SockAction.send (createResponse 200 "OK".toList (H req.headers)
        "text/html".toList), SockAction.close] := by
  unfold handleClient
  rw [if_pos hn, hparse]
  simp [Except.map, hroute]

/-- Witness for C1: the registered route `/` with a `hello` handler. -/
theorem handleClient_registered_route_witness :
    handleClient [("/".toList, rootHandler)] 27 "GET / HTTP/1.1\r\nHost: x\r\n\r\n".toList =
      Except.ok [SockAction.send (createResponse 200 "OK".toList
        (rootHandler [("Host".toList, "x".toList)]) "text/html".toList), SockAction.close] :=
  handleClient_registered_route [("/".toList, rootHandler)] 27 _
    ⟨"GET".toList, "/".toList, "HTTP/1.1".toList, [("Host".toList, "x".toList)], []⟩
    rootHandler (by decide) (by rfl) (by simp [lookupA])

/-- C2: for every path not in the route table, the connection yields status
404 "Not Found" and the body embeds the requested path verbatim. -/
theorem handleClient_unregistered_route (routes : Routes) (n : Int) (raw : Str)
    (req : HTTPRequest) (hn : 0 < n)
    (hparse : parseRequest (raw.takeWhile fun c => c != Char.ofNat 0) = Except.ok req)
    (hroute : lookupA routes req.path = none) :
    handleClient routes n raw =
      Except.ok [SockAction.send (createResponse 404 "Not Found".toList
        (notFoundBody req.path) "text/html".toList), SockAction.close] ∧
    ∃ l r : Str, notFoundBody req.path = l ++ req.path ++ r := by
  constructor
  · unfold handleClient
    rw [if_pos hn, hparse]
    simp [Except.map, hroute]
  · exact ⟨_, _, rfl⟩

/-- Witness for C2: an unregistered path `/missing`. -/
theorem handleClient_unregistered_route_witness :
    handleClient [] 25 "GET /missing HTTP/1.1\r\n\r\n".toList =
      Except.ok [SockAction.send (createResponse 404 "Not Found".toList
        (notFoundBody "/missing".toList) "text/html".toList), SockAction.close] ∧
    ∃ l r : Str, notFoundBody "/missing".toList = l ++ "/missing".toList ++ r :=
  handleClient_unregistered_route [] 25 _
    ⟨"GET".toList, "/missing".toList, "HTTP/1.1".toList, [], []⟩
    (by decide) (by rfl) rfl

/-- C3: the response builder emits exactly the status line, the
`Content-Type`, `Content-Length` (byte length of the body) and
`Connection: close` headers each CRLF-terminated, a blank CRLF, then the
body with no trailing terminator. -/
theorem createResponse_exact_bytes (status_code : Int)
    (status_msg content content_type : Str) :
    createResponse status_code status_msg content content_type =
      specResponse status_code status_msg content content_type := by
  have hsplit : ("Connection: close\r\n".toList : Str) =
      "Connection: close".toList ++ "\r\n".toList := rfl
  simp [createResponse, specResponse, hsplit, List.append_assoc]

/-- C8: route registration and lookup use full path-string equality only:
re-registering a path overwrites (last registration wins), a lookup of the
registered path finds the handler, and any other path — in particular
`/about/` vs `/about` — is unaffected by the registration. -/
theorem routes_exact_match_semantics (R : Routes) (p q : Str) (h₁ h₂ : Handler)
    (hpq : q ≠ p) :
    addRoute (addRoute R p h₁) p h₂ = addRoute R p h₂ ∧
    lookupA (addRoute R p h₂) p = some h₂ ∧
    lookupA (addRoute R p h₂) q = lookupA R q :=
  ⟨insertA_insertA_same R p h₁ h₂, lookupA_insertA_self R p h₂,
   lookupA_insertA_ne R p q h₂ hpq⟩

/-- Witness for C8 at the distinct paths `/about` and `/about/`. -/
theorem routes_exact_match_semantics_witness :
    addRoute (addRoute [] "/about".toList demoHandlerA) "/about".toList demoHandlerB =
        addRoute [] "/about".toList demoHandlerB ∧
    lookupA (addRoute [] "/about".toList demoHandlerB) "/about".toList = some demoHandlerB ∧
    lookupA (addRoute [] "/about".toList demoHandlerB) "/about/".toList =
      lookupA [] "/about/".toList :=
  routes_exact_match_semantics [] "/about".toList "/about/".toList
    demoHandlerA demoHandlerB (by decide)

/-- C10: everything at and after the first NUL byte in the received buffer is
discarded before parsing: the handler behaves exactly as if only the bytes
before the first NUL had been received. -/
theorem handleClient_truncates_at_nul (routes : Routes) (n : Int) (pre post : Str)
    (h : Char.ofNat 0 ∉ pre) :
    handleClient routes n (pre ++ Char.ofNat 0 :: post) = handleClient routes n pre := by
  unfold handleClient
  rw [takeWhile_append_nul pre post h, takeWhile_no_nul pre h]

/-- Witness for C10: a complete request followed by a NUL and further bytes. -/
theorem handleClient_truncates_at_nul_witness :
    handleClient [] 30 ("GET /p HTTP/1.1\r\n\r\n".toList ++ Char.ofNat 0 :: "EXTRA".toList) =
      handleClient [] 30 "GET /p HTTP/1.1\r\n\r\n".toList :=
  handleClient_truncates_at_nul [] 30 _ _ (by decide)

/-- C4 (failing input): contrary to the never-raises contract, the parser
throws `std::out_of_range` on a header line whose first colon is its final
character — here the LF-terminated line `User-Agent:` — because
`line.substr(colon + 2)` is evaluated with `colon + 2 > line.size()`. -/
theorem parseRequest_raises_on_bare_colon_line :
    parseRequest "GET / HTTP/1.1\nUser-Agent:\n\r\n".toList = Except.error () := rfl

/-- C6 (failing input): the header line `Accept:` lies in the region between
the request line and the bare-CR line and contains a colon (at index 6), yet
no key/value is produced: the parser throws instead of splitting the line. -/
theorem parseRequest_raises_in_header_region :
    findChar ':' "Accept:".toList = some 6 ∧
    parseRequest "GET /x HTTP/1.1\r\nAccept:\n\r\n".toList = Except.error () :=
  ⟨rfl, rfl⟩

/-- C7 (failing input): a request line with a single token does leave path
and version empty, but the parser can still raise — on this request with the
malformed first line `GET` it throws at the header line `A:`. -/
theorem parseRequest_short_request_line_raises :
    parseRequestLine "GET".toList = ("GET".toList, [], []) ∧
    parseRequest "GET\nA:\n".toList = Except.error () :=
  ⟨rfl, rfl⟩

/-- C9 (failing input): when the parser throws, the exception propagates out
of `handleClient` and `closeSocket` is never invoked, so the socket is not
closed on that branch (the model returns `error` with no `close` action). -/
theorem handleClient_no_close_on_parse_throw :
    handleClient [] 18 "GET / HTTP/1.1\nZ:\n".toList = Except.error () := rfl

/-! ## Lemmas for the header-count claim -/

theorem linesOf_append_newline (xs rest : Str) (h : '\n' ∉ xs) :
    linesOf (xs ++ '\n' :: rest) = (xs, false) :: linesOf rest := by
  induction xs with
  | nil => simp [linesOf]
  | cons c cs ih =>
    have hc : c ≠ '\n' := fun hh => h (hh ▸ List.mem_cons_self c cs)
    have hcs : '\n' ∉ cs := fun hh => h (List.mem_cons_of_mem c hh)
    simp only [List.cons_append, linesOf, List.append_eq, if_neg hc]
    rw [ih hcs]

theorem take_len_append {α : Type} (l₁ l₂ : List α) : (l₁ ++ l₂).take l₁.length = l₁ := by
  induction l₁ with
  | nil => rfl
  | cons a l ih => simp [ih]

theorem drop_len_add_two {α : Type} (k : List α) (a b : α) (t : List α) :
    (k ++ a :: b :: t).drop (k.length + 2) = t := by
  induction k with
  | nil => rfl
  | cons c cs ih =>
    have harith : (c :: cs).length + 2 = (cs.length + 2) + 1 := by simp
    rw [harith, List.cons_append, List.drop_succ_cons]
    exact ih

theorem findChar_prepend (k t : Str) (h : ':' ∉ k) :
    findChar ':' (k ++ ':' :: t) = some k.length := by
  induction k with
  | nil => simp [findChar]
  | cons c cs ih =>
    have hc : c ≠ ':' := fun hh => h (hh ▸ List.mem_cons_self c cs)
    have hcs : ':' ∉ cs := fun hh => h (List.mem_cons_of_mem c hh)
    simp [findChar, hc, ih hcs]

theorem stripCR_concat_cr (v : Str) : stripCR (v ++ ['\r']) = v := by
  simp [stripCR, List.getLast?_concat, List.dropLast_concat]

theorem parseHeaderLine_wf (m : Headers) (k v : Str) (hk : ':' ∉ k) :
    parseHeaderLine m (k ++ ':' :: ' ' :: (v ++ ['\r'])) = Except.ok (insertA m k v) := by
  have hlen : k.length + 2 ≤ (k ++ ':' :: ' ' :: (v ++ ['\r'])).length := by
    simp [List.length_append]
  unfold parseHeaderLine
  simp only [findChar_prepend k (' ' :: (v ++ ['\r'])) hk, substrFrom, if_pos hlen,
    take_len_append, drop_len_add_two, stripCR_concat_cr, Except.map]

theorem mkLine_ne_cr (k v : Str) : k ++ ':' :: ' ' :: (v ++ ['\r']) ≠ ['\r'] := by
  intro h
  have hlen := congrArg List.length h
  simp [List.length_append] at hlen
  omega

theorem headerLoop_wf (kvs : List (Str × Str)) (m : Headers) (rest : List (Str × Bool))
    (hwf : ∀ kv ∈ kvs, wfKV kv) :
    headerLoop m ((kvs.map fun kv => (kv.1 ++ ':' :: ' ' :: (kv.2 ++ ['\r']), false)) ++
        (['\r'], false) :: rest) = Except.ok (foldIns m kvs, rest) := by
  induction kvs generalizing m with
  | nil => simp [headerLoop, foldIns]
  | cons kv kvs ih =>
    obtain ⟨k, v⟩ := kv
    have hk : ':' ∉ k := (hwf (k, v) (List.mem_cons_self _ _)).1
    have hrest : ∀ kv ∈ kvs, wfKV kv := fun kv h => hwf kv (List.mem_cons_of_mem _ h)
    simp only [List.map_cons, List.cons_append, headerLoop,
      if_neg (mkLine_ne_cr k v), parseHeaderLine_wf m k v hk]
    simpa [foldIns, Except.bind] using ih (insertA m k v) hrest

theorem newline_not_in_mkLine (k v : Str) (hk : '\n' ∉ k) (hv : '\n' ∉ v) :
    '\n' ∉ k ++ ':' :: ' ' :: (v ++ ['\r']) := by
  simp [List.mem_append, List.mem_cons, hk, hv]

theorem linesOf_headerSection (kvs : List (Str × Str)) (b : Str)
    (hwf : ∀ kv ∈ kvs, wfKV kv) :
    linesOf ((kvs.map mkHeaderLine).flatten ++ '\r' :: '\n' :: b) =
      (kvs.map fun kv => (kv.1 ++ ':' :: ' ' :: (kv.2 ++ ['\r']), false)) ++
        (['\r'], false) :: linesOf b := by
  induction kvs with
  | nil =>
    simpa using linesOf_append_newline ['\r'] b (by decide)
  | cons kv kvs ih =>
    obtain ⟨k, v⟩ := kv
    have hw := hwf (k, v) (List.mem_cons_self _ _)
    have hrest : ∀ kv ∈ kvs, wfKV kv := fun kv h => hwf kv (List.mem_cons_of_mem _ h)
    have h1 : '\n' ∉ k ++ ':' :: ' ' :: (v ++ ['\r']) :=
      newline_not_in_mkLine k v hw.2.1 hw.2.2.2.1
    have harr : mkHeaderLine (k, v) ++ ((kvs.map mkHeaderLine).flatten ++ '\r' :: '\n' :: b) =
        (k ++ ':' :: ' ' :: (v ++ ['\r'])) ++
          '\n' :: ((kvs.map mkHeaderLine).flatten ++ '\r' :: '\n' :: b) := by
      simp [mkHeaderLine, List.append_assoc]
    rw [List.map_cons, List.flatten_cons, List.append_assoc, harr,
      linesOf_append_newline _ _ h1, ih hrest]
    simp

theorem keys_insertA (m : Headers) (k : Str) (v : Str) :
    (insertA m k v).map Prod.fst =
      if k ∈ m.map Prod.fst then m.map Prod.fst else m.map Prod.fst ++ [k] := by
  induction m with
  | nil => simp [insertA]
  | cons kv rest ih =>
    obtain ⟨k', v'⟩ := kv
    by_cases h : k' = k
    · subst h
      simp [insertA]
    · by_cases hk : k ∈ rest.map Prod.fst
      · simp [insertA, lookupA, h, ih, hk, Ne.symm h]
      · simp [insertA, lookupA, h, ih, hk, Ne.symm h]

theorem nodup_keys_insertA (m : Headers) (k : Str) (v : Str)
    (h : (m.map Prod.fst).Nodup) : ((insertA m k v).map Prod.fst).Nodup := by
  rw [keys_insertA]
  by_cases hk : k ∈ m.map Prod.fst
  · simpa [hk] using h
  · rw [if_neg hk, List.nodup_append]
    refine ⟨h, List.nodup_singleton k, ?_⟩
    intro a ha hb
    rw [List.mem_singleton] at hb
    exact hk (hb ▸ ha)

theorem toFinset_keys_insertA (m : Headers) (k : Str) (v : Str) :
    ((insertA m k v).map Prod.fst).toFinset = insert k (m.map Prod.fst).toFinset := by
  rw [keys_insertA]
  by_cases hk : k ∈ m.map Prod.fst
  · rw [if_pos hk, Finset.insert_eq_self.mpr (List.mem_toFinset.mpr hk)]
  · rw [if_neg hk, List.toFinset_append, Finset.union_comm]
    simp [Finset.insert_eq]

theorem nodup_keys_foldIns (kvs : List (Str × Str)) (m : Headers)
    (h : (m.map Prod.fst).Nodup) : ((foldIns m kvs).map Prod.fst).Nodup := by
  induction kvs generalizing m with
  | nil => simpa [foldIns] using h
  | cons kv rest ih =>
    simp only [foldIns, List.foldl_cons]
    exact ih (insertA m kv.1 kv.2) (nodup_keys_insertA m kv.1 kv.2 h)

theorem toFinset_keys_foldIns (kvs : List (Str × Str)) (m : Headers) :
    ((foldIns m kvs).map Prod.fst).toFinset =
      (m.map Prod.fst).toFinset ∪ (kvs.map Prod.fst).toFinset := by
  induction kvs generalizing m with
  | nil => simp [foldIns]
  | cons kv rest ih =>
    simp only [foldIns, List.foldl_cons] at ih ⊢
    rw [ih (insertA m kv.1 kv.2), toFinset_keys_insertA]
    simp [List.map_cons, Finset.insert_union, Finset.union_insert]

theorem lookupA_insertA {β : Type} (m : List (Str × β)) (k q : Str) (v : β) :
    lookupA (insertA m k v) q = if k = q then some v else lookupA m q := by
  by_cases h : k = q
  · subst h
    simp [lookupA_insertA_self]
  · simp [h, lookupA_insertA_ne m k q v (Ne.symm h)]

theorem lookupA_foldIns (kvs : List (Str × Str)) (m : Headers) (q : Str) :
    lookupA (foldIns m kvs) q =
      kvs.foldl (fun acc kv => if kv.1 = q then some kv.2 else acc) (lookupA m q) := by
  induction kvs generalizing m with
  | nil => rfl
  | cons kv rest ih =>
    simp only [foldIns, List.foldl_cons] at ih ⊢
    rw [ih (insertA m kv.1 kv.2), lookupA_insertA]

theorem length_foldIns_nil (kvs : List (Str × Str)) :
    (foldIns [] kvs).length = (kvs.map Prod.fst).dedup.length := by
  have hnd : ((foldIns [] kvs).map Prod.fst).Nodup := nodup_keys_foldIns kvs [] (by simp)
  have hts := toFinset_keys_foldIns kvs []
  have h1 : (foldIns [] kvs).length = ((foldIns [] kvs).map Prod.fst).length :=
    (List.length_map _ _).symm
  rw [h1, ← List.toFinset_card_of_nodup hnd, hts]
  simp [List.card_toFinset]

/-- C5: a request whose header section consists of well-formed `Key: Value`
lines parses to a headers mapping whose size is the number of distinct keys
(so N lines with distinct keys give size N), and for each key the mapped
value comes from the last line bearing that key. -/
theorem parseRequest_wellformed_header_count (rl : Str) (kvs : List (Str × Str)) (b : Str)
    (hrl : '\n' ∉ rl) (hwf : ∀ kv ∈ kvs, wfKV kv) :
    ∃ req, parseRequest (mkRequest rl kvs b) = Except.ok req ∧
      req.headers.length = (kvs.map Prod.fst).dedup.length ∧
      ((kvs.map Prod.fst).Nodup → req.headers.length = kvs.length) ∧
      ∀ q, lookupA req.headers q = lastValue kvs q := by
  have h1 : '\n' ∉ rl ++ ['\r'] := by
    intro hmem
    rcases List.mem_append.mp hmem with hmem | hmem
    · exact hrl hmem
    · simp at hmem
  have hshape : mkRequest rl kvs b =
      (rl ++ ['\r']) ++ '\n' :: ((kvs.map mkHeaderLine).flatten ++ '\r' :: '\n' :: b) := by
    simp [mkRequest, List.append_assoc]
  have hlines : linesOf (mkRequest rl kvs b) =
      (rl ++ ['\r'], false) ::
        ((kvs.map fun kv => (kv.1 ++ ':' :: ' ' :: (kv.2 ++ ['\r']), false)) ++
          (['\r'], false) :: linesOf b) := by
    rw [hshape, linesOf_append_newline _ _ h1, linesOf_headerSection kvs b hwf]
  have hparse : parseRequest (mkRequest rl kvs b) = Except.ok
      { method := (parseRequestLine (rl ++ ['\r'])).1
        path := (parseRequestLine (rl ++ ['\r'])).2.1
        version := (parseRequestLine (rl ++ ['\r'])).2.2
        headers := foldIns [] kvs
        body := bodyJoin (linesOf b) } := by
    unfold parseRequest
    rw [hlines]
    simp only [headerLoop_wf kvs [] (linesOf b) hwf, Except.map]
  refine ⟨_, hparse, ?_, ?_, ?_⟩
  · exact length_foldIns_nil kvs
  · intro hnd
    rw [length_foldIns_nil kvs, List.dedup_eq_self.mpr hnd, List.length_map]
  · intro q
    rw [lookupA_foldIns kvs [] q]
    rfl

/-- Witness for C5: three header lines with a duplicated `Host` key. -/
theorem parseRequest_wellformed_header_count_witness :
    ∃ req, parseRequest (mkRequest "GET / HTTP/1.1".toList demoKVs []) = Except.ok req ∧
      req.headers.length = (demoKVs.map Prod.fst).dedup.length ∧
      ((demoKVs.map Prod.fst).Nodup → req.headers.length = demoKVs.length) ∧
      ∀ q, lookupA req.headers q = lastValue demoKVs q :=
  parseRequest_wellformed_header_count "GET / HTTP/1.1".toList demoKVs []
    (by decide) (by decide)

/-! ## Where the parser does and does not throw

The next two results bound the out-of-range defect exactly: the parser
succeeds on every input whose header-region lines never place their first
colon at the end of the line; only such lines can make it throw. -/

theorem headerLoop_ok_of_good (ls : List (Str × Bool)) (m : Headers)
    (h : ∀ line ∈ (ls.map Prod.fst).takeWhile (fun l => l != ['\r']),
      ∀ c, findChar ':' line = some c → c + 2 ≤ line.length) :
    ∃ p, headerLoop m ls = Except.ok p := by
  induction ls generalizing m with
  | nil => exact ⟨(m, []), rfl⟩
  | cons le rest ih =>
    obtain ⟨line, e⟩ := le
    by_cases hcr : line = ['\r']
    · subst hcr
      exact ⟨(m, rest), by simp [headerLoop]⟩
    · have htw : ((((line, e) :: rest).map Prod.fst).takeWhile (fun l => l != ['\r'])) =
          line :: (rest.map Prod.fst).takeWhile (fun l => l != ['\r']) := by
        simp [List.takeWhile_cons, hcr]
      have hgood := h line (by rw [htw]; exact List.mem_cons_self _ _)
      have hrest : ∀ l ∈ (rest.map Prod.fst).takeWhile (fun l => l != ['\r']),
          ∀ c, findChar ':' l = some c → c + 2 ≤ l.length :=
        fun l hl => h l (by rw [htw]; exact List.mem_cons_of_mem _ hl)
      have hok : ∃ m', parseHeaderLine m line = Except.ok m' := by
        unfold parseHeaderLine
        cases hfc : findChar ':' line with
        | none => exact ⟨m, rfl⟩
        | some c =>
          have := hgood c hfc
          simp [substrFrom, this, Except.map]
      obtain ⟨m', hm'⟩ := hok
      obtain ⟨p, hp⟩ := ih m' hrest
      exact ⟨p, by simp [headerLoop, hcr, hm', Except.bind, hp]⟩

theorem parseRequest_ok_of_good_colons (s : Str)
    (h : ∀ line ∈ headerRegion s, ∀ c, findChar ':' line = some c → c + 2 ≤ line.length) :
    ∃ req, parseRequest s = Except.ok req := by
  unfold parseRequest
  cases hls : linesOf s with
  | nil => exact ⟨_, rfl⟩
  | cons rl rest =>
    obtain ⟨rls, rle⟩ := rl
    have hh : ∀ line ∈ (rest.map Prod.fst).takeWhile (fun l => l != ['\r']),
        ∀ c, findChar ':' line = some c → c + 2 ≤ line.length := by
      intro line hline
      exact h line (by simp [headerRegion, hls, hline])
    obtain ⟨p, hp⟩ := headerLoop_ok_of_good rest [] hh
    exact ⟨{ method := (parseRequestLine rls).1, path := (parseRequestLine rls).2.1,
             version := (parseRequestLine rls).2.2, headers := p.1, body := bodyJoin p.2 },
           by simp only [hp, Except.map]⟩

theorem handleClient_empty_read (routes : Routes) (n : Int) (raw : Str) (h : n ≤ 0) :
    handleClient routes n raw = Except.ok [SockAction.close] := by
  unfold handleClient
  rw [if_neg (by omega)]

theorem handleClient_close_once_of_ok (routes : Routes) (n : Int) (raw : Str)
    (acts : List SockAction) (h : handleClient routes n raw = Except.ok acts) :
    acts = [SockAction.close] ∨ ∃ d, acts = [SockAction.send d, SockAction.close] := by
  unfold handleClient at h
  by_cases hn : 0 < n
  · rw [if_pos hn] at h
    cases hp : parseRequest (raw.takeWhile fun c => c != Char.ofNat 0) with
    | error e =>
      rw [hp] at h
      simp [Except.map] at h
    | ok req =>
      rw [hp] at h
      simp only [Except.map] at h
      cases hr : lookupA routes req.path with
      | some handler =>
        rw [hr] at h
        injection h with h2
        exact Or.inr ⟨_, h2.symm⟩
      | none =>
        rw [hr] at h
        injection h with h2
        exact Or.inr ⟨_, h2.symm⟩
  · rw [if_neg hn] at h
    injection h with h2
    exact Or.inl h2.symm
